import Mathlib

/-!
Shallow embedding of the csvdiff reconciliation engine (src/main.rs).

Strings are modelled by Lean `String` (a structure wrapping `List Char`);
where the Rust code indexes or measures a `&str` by UTF-8 bytes we compute
the byte length explicitly from the characters (`Char.utf8Size`), and a
byte slice `&s[..k]` becomes a partial operation returning `none` exactly
when the Rust code would panic (cut point inside a multi-byte character or
past the end).  All fallible paths (errors and panics) are `Option`.
-/

namespace Csvdiff

/-- A CSV record (`csv::StringRecord`): the ordered field values of one row. -/
abbrev Row := List String

/-- A parsed table: the header row plus the data rows, as handed to
`read_csv_to_map` by the csv reader. -/
structure Table where
  headers : List String
  rows : List Row

/-- UTF-8 byte length of a character sequence: the Rust `str::len`. -/
def utf8Len (s : List Char) : Nat := (s.map Char.utf8Size).sum

/-- Byte slice `&s[..n]` of a Rust string: the prefix of `s` occupying
exactly `n` bytes, or `none` (a Rust panic) when `n` is past the end or
falls inside a multi-byte character. -/
def byteTake : Nat → List Char → Option (List Char)
  | 0, _ => some []
  | _ + 1, [] => none
  | n + 1, c :: cs =>
    if c.utf8Size ≤ n + 1 then (byteTake (n + 1 - c.utf8Size) cs).map (fun t => c :: t)
    else none

/-- `truncate_string` from src/main.rs: if the byte length of `s` is at most
`max_width` the string is returned unchanged, otherwise it is cut to
`max_width.saturating_sub(3)` bytes (Nat subtraction is saturating) and
`"..."` is appended; the byte slice panics (`none`) off a char boundary. -/
def truncate_string (s : String) (max_width : Nat) : Option String :=
  if utf8Len s.data ≤ max_width then some s
  else (byteTake (max_width - 3) s.data).map (fun p => String.mk p ++ "...")

/-- Resolution of one requested key column to a header position
(`headers.iter().position(|h| h == key)` in `read_csv_to_map`):
the first matching index. -/
def resolveKeyColumn (headers : List String) (key : String) : Option Nat :=
  headers.findIdx? (fun h => h == key)

/-- The composite key of a row (`key_parts.join("|")` in `read_csv_to_map`):
the row's values at the resolved key positions, a missing trailing field
reading as `""` (`record.get(i).unwrap_or("")`), joined with `"|"`. -/
def makeKey (key_indexes : List Nat) (r : Row) : String :=
  String.intercalate "|" (key_indexes.map (fun i => r.getD i ""))

/-- Model of the `HashMap<String, StringRecord>` row index as an association
list: `mapInsert` prepends, and `mapGet` returns the most recent entry, so a
later insert for the same key shadows an earlier one exactly as
`HashMap::insert` overwrites. -/
abbrev RowMap := List (String × Row)

/-- `HashMap::insert`: the new entry shadows any earlier entry for the key. -/
def mapInsert (m : RowMap) (k : String) (v : Row) : RowMap := (k, v) :: m

/-- `HashMap::get`: the value of the most recent insert for the key. -/
def mapGet (m : RowMap) (k : String) : Option Row :=
  (m.find? (fun p => p.1 == k)).map (fun p => p.2)

/-- `HashMap::keys` (as a duplicate-free list): the distinct keys present. -/
def mapKeys (m : RowMap) : List String := (m.map (fun p => p.1)).dedup

/-- The indexing loop of `read_csv_to_map`: insert `(composite key → row)`
for each row in input order, a later duplicate key overwriting. -/
def buildIndex (key_indexes : List Nat) (rows : List Row) : RowMap :=
  rows.foldl (fun m r => mapInsert m (makeKey key_indexes r) r) []

/-- `read_csv_to_map` from src/main.rs: resolve every requested key column
against the header (failing the whole call when any is absent, before any
row is indexed) and build the key-indexed row map. -/
def read_csv_to_map (t : Table) (key_columns : List String) :
    Option (List String × RowMap) :=
  (key_columns.mapM (resolveKeyColumn t.headers)).map
    (fun key_indexes => (t.headers, buildIndex key_indexes t.rows))

/-- `DiffRow` from src/main.rs: one reported divergence. -/
structure DiffRow where
  key : String
  column : String
  file1 : String
  file2 : String
deriving DecidableEq

/-- Lookup in `headers1_map` / `headers2_map` built in `main` by
`headers.iter().enumerate().map(|(i, h)| (h.clone(), i)).collect::<HashMap<_, _>>()`:
collecting pairs into a `HashMap` keeps, for a duplicated name, the value of
the last insert, so the map sends a name to the LAST index at which it
occurs in the header (or `none` when absent). -/
def headersMapGet (headers : List String) (name : String) : Option Nat :=
  match headers with
  | [] => none
  | h :: t =>
    match headersMapGet t name with
    | some i => some (i + 1)
    | none => if h == name then some 0 else none

/-- The per-column body of the both-present loop in `main`: given the two
headers and rows, produce the `(v1_display, v2_display)` pair for a column
name, or `none` when the column compares equal (the `continue`).  Values are
`headersN_map.get(&col).and_then(|&i| r.get(i)).unwrap_or("")`.  The
`(false, false)` arm is `unreachable!()` in the source and can never fire
because the column is drawn from the union of the two headers. -/
def compareColumn (h1 h2 : List String) (r1 r2 : Row) (col : String) :
    Option (String × String) :=
  match headersMapGet h1 col, headersMapGet h2 col with
  | some i, some j =>
    if r1.getD i "" ≠ r2.getD j "" then some (r1.getD i "", r2.getD j "") else none
  | some i, none => some (r1.getD i "", "[column not in file2]")
  | none, some j => some ("[column not in file1]", r2.getD j "")
  | none, none => none

/-- `all_columns` in `main`: the union of both headers' column names,
collected into a `HashSet`.  The set is modelled by the duplicate-free
list `(h1 ++ h2).dedup`, one enumeration of that set. -/
def allColumns (h1 h2 : List String) : List String := (h1 ++ h2).dedup

/-- The both-present branch of `main`: over every column name in the union
of the headers, skip key and ignored columns, and emit one diff record per
column that `compareColumn` reports different. -/
def diffBoth (key ignore h1 h2 : List String) (k : String) (r1 r2 : Row) :
    List DiffRow :=
  (allColumns h1 h2).filterMap (fun col =>
    if col ∈ key ∨ col ∈ ignore then none
    else (compareColumn h1 h2 r1 r2 col).map
      (fun v => { key := k, column := col, file1 := v.1, file2 := v.2 }))

/-- The missing-row preview built in `main`: the row's fields joined with
`","`, the first 50 characters taken, and, when that prefix occupies at
least 50 bytes (`preview.len() >= 50`), cut to its first 47 bytes with
`"..."` appended (`&preview[..47]`, a panic — `none` — off a boundary). -/
def rowPreview (r : Row) : Option String :=
  let preview := (String.intercalate "," r).data.take 50
  if 50 ≤ utf8Len preview then
    (byteTake 47 preview).map (fun p => String.mk p ++ "...")
  else some (String.mk preview)

/-- The per-key dispatch of the reconciliation loop in `main`: both-present
rows go through the column loop, one-sided rows produce a single
missing-row record carrying the preview; `(None, None)` is `unreachable!()`
in the source (a panic, hence `none`). -/
def processKey (key ignore h1 h2 : List String) (m1 m2 : RowMap) (k : String) :
    Option (List DiffRow) :=
  match mapGet m1 k, mapGet m2 k with
  | some r1, some r2 => some (diffBoth key ignore h1 h2 k r1 r2)
  | some r1, none =>
    (rowPreview r1).map (fun p =>
      [{ key := k, column := "[missing in file2]", file1 := p, file2 := "" }])
  | none, some r2 =>
    (rowPreview r2).map (fun p =>
      [{ key := k, column := "[missing in file1]", file1 := "", file2 := p }])
  | none, none => none

/-- `all_keys` in `main`: `map1.keys().chain(map2.keys()).collect::<HashSet<_>>()`,
modelled by one duplicate-free enumeration of the key union. -/
def allKeys (m1 m2 : RowMap) : List String := (mapKeys m1 ++ mapKeys m2).dedup

/-- The reconciliation loop of `main`: visit every key of the union once
and concatenate the per-key diff records. -/
def reconcile (key ignore h1 h2 : List String) (m1 m2 : RowMap) :
    Option (List DiffRow) :=
  ((allKeys m1 m2).mapM (processKey key ignore h1 h2 m1 m2)).map List.flatten

/-- The diff-producing pipeline of `main`: index both tables with the same
key columns (aborting on any indexing error) and reconcile the two indices. -/
def runDiff (t1 t2 : Table) (key ignore : List String) : Option (List DiffRow) := do
  let p1 ← read_csv_to_map t1 key
  let p2 ← read_csv_to_map t2 key
  reconcile key ignore p1.1 p2.1 p1.2 p2.2

/-- The separator row inserted by `create_summary_table` between the head
and tail windows, stating how many rows are hidden. -/
def sepRow (hidden : Nat) : DiffRow :=
  { key := "...", column := "... (" ++ toString hidden ++ " more rows) ...",
    file1 := "...", file2 := "..." }

/-- Cell truncation of one diff record in `create_summary_table`. -/
def truncateDiffRow (w : Nat) (d : DiffRow) : Option DiffRow := do
  let k ← truncate_string d.key w
  let c ← truncate_string d.column w
  let f1 ← truncate_string d.file1 w
  let f2 ← truncate_string d.file2 w
  pure { key := k, column := c, file1 := f1, file2 := f2 }

/-- The record-selection logic of `create_summary_table` (rendering the
selected records to a text table, and the trailing count summary lines, are
outside the engine): with `no_truncate` the records pass through untouched;
an empty input yields no table (the fixed no-differences message); otherwise
cells are truncated, and when the record count exceeds `max_rows` the first
`max_rows / 2` records, one separator row and the last
`max_rows - max_rows / 2 - 1` records are shown.  `max_rows - head_rows - 1`
is usize arithmetic; for `max_rows = 0` the release-mode wrap makes the
`len >= tail_rows` guard fail for any list shorter than 2^64 entries, so
the tail window is skipped exactly as with the truncated Nat subtraction
used here. -/
def create_summary_table (diffs : List DiffRow) (max_rows max_cell_width : Nat)
    (no_truncate : Bool) : Option (List DiffRow) :=
  if no_truncate then some diffs
  else if diffs.length = 0 then some []
  else do
    let truncated ← diffs.mapM (truncateDiffRow max_cell_width)
    if diffs.length ≤ max_rows then pure truncated
    else
      let head_rows := max_rows / 2
      let tail_rows := max_rows - head_rows - 1
      let rest := truncated.drop head_rows
      let display := truncated.take head_rows ++ [sepRow (diffs.length - max_rows)]
      pure (if tail_rows > 0 ∧ tail_rows ≤ rest.length then
          display ++ rest.drop (rest.length - tail_rows)
        else display)

/-- Left-biased choice on options, used to state lookup lemmas. -/
def optOr (a b : Option α) : Option α :=
  match a with
  | some x => some x
  | none => b

/-! Helper lemmas about the embedding. -/

theorem mapM_opt_nil (f : α → Option β) : ([] : List α).mapM f = some [] := rfl

theorem mapM_opt_cons (f : α → Option β) (a : α) (l : List α) :
    (a :: l).mapM f =
      (f a).bind fun b => (l.mapM f).bind fun bs => some (b :: bs) := by
  rw [List.mapM_cons]
  rfl

theorem length_of_mapM_opt (f : α → Option β) :
    ∀ (l : List α) (l2 : List β), l.mapM f = some l2 → l2.length = l.length := by
  intro l
  induction l with
  | nil => intro l2 h; rw [mapM_opt_nil] at h; cases h; rfl
  | cons a t ih =>
    intro l2 h
    rw [mapM_opt_cons] at h
    cases hfa : f a with
    | none => rw [hfa] at h; cases h
    | some b =>
      rw [hfa] at h
      cases hft : t.mapM f with
      | none => rw [hft] at h; cases h
      | some bs =>
        rw [hft] at h
        cases h
        simp [ih bs hft]

theorem mapM_opt_eq_none (f : α → Option β) :
    ∀ (l : List α) (a : α), a ∈ l → f a = none → l.mapM f = none := by
  intro l
  induction l with
  | nil => intro a ha; cases ha
  | cons b t ih =>
    intro a ha hfa
    rw [mapM_opt_cons]
    rcases List.mem_cons.mp ha with h | h
    · subst h; rw [hfa]; rfl
    · cases hfb : f b with
      | none => rfl
      | some v => rw [ih a h hfa]; rfl

theorem mem_mapKeys_iff (m : RowMap) (k : String) :
    k ∈ mapKeys m ↔ (mapGet m k).isSome := by
  unfold mapKeys mapGet
  rw [List.mem_dedup]
  constructor
  · intro h
    rcases List.mem_map.mp h with ⟨p, hp, hpk⟩
    have hs : (m.find? (fun p => p.1 == k)).isSome := by
      rw [List.find?_isSome]
      exact ⟨p, hp, by simp [hpk]⟩
    cases hf : m.find? (fun p => p.1 == k) with
    | none => rw [hf] at hs; simp at hs
    | some q => rfl
  · intro h
    cases hf : m.find? (fun p => p.1 == k) with
    | none => rw [hf] at h; simp at h
    | some q =>
      have hq := List.find?_some hf
      have hqm : q ∈ m := List.mem_of_find?_eq_some hf
      exact List.mem_map.mpr ⟨q, hqm, by simpa using hq⟩

theorem find?_append_opt (p : α → Bool) :
    ∀ l1 l2 : List α, (l1 ++ l2).find? p = optOr (l1.find? p) (l2.find? p) := by
  intro l1
  induction l1 with
  | nil => intro l2; rfl
  | cons a t ih =>
    intro l2
    cases h : p a with
    | true => simp [List.find?_cons, h, optOr]
    | false => simp [List.find?_cons, h, ih]

theorem mapGet_mapInsert (m : RowMap) (k k2 : String) (v : Row) :
    mapGet (mapInsert m k v) k2 = if k == k2 then some v else mapGet m k2 := by
  unfold mapGet mapInsert
  cases h : (k == k2) with
  | true => simp [List.find?_cons, h]
  | false => simp [List.find?_cons, h]

theorem mapGet_buildIndex_aux (ki : List Nat) (k : String) :
    ∀ (rows : List Row) (acc : RowMap),
      mapGet (rows.foldl (fun m r => mapInsert m (makeKey ki r) r) acc) k =
        optOr (rows.reverse.find? (fun r => makeKey ki r == k)) (mapGet acc k) := by
  intro rows
  induction rows with
  | nil => intro acc; rfl
  | cons r t ih =>
    intro acc
    rw [List.foldl_cons, ih, List.reverse_cons, find?_append_opt, mapGet_mapInsert]
    cases h : (makeKey ki r == k) with
    | true =>
      simp only [List.find?_cons, h, if_pos rfl, List.find?_nil]
      cases t.reverse.find? (fun r => makeKey ki r == k) <;> rfl
    | false =>
      simp only [List.find?_cons, h, List.find?_nil]
      rw [if_neg (by simp [h])]
      cases t.reverse.find? (fun r => makeKey ki r == k) <;> rfl

theorem mapGet_buildIndex (ki : List Nat) (rows : List Row) (k : String) :
    mapGet (buildIndex ki rows) k =
      rows.reverse.find? (fun r => makeKey ki r == k) := by
  unfold buildIndex
  rw [mapGet_buildIndex_aux]
  cases rows.reverse.find? (fun r => makeKey ki r == k) <;> rfl

theorem resolveKeyColumn_eq_none (headers : List String) (k : String)
    (h : k ∉ headers) : resolveKeyColumn headers k = none := by
  rw [resolveKeyColumn, List.findIdx?_eq_none_iff]
  intro x hx
  have hne : x ≠ k := fun he => h (he ▸ hx)
  simp [hne]

/-! Claim theorems. -/

/-- C3: for every table and key specification that resolves against the
header, `read_csv_to_map` succeeds (no error on duplicate keys) and the row
index holds, under each composite key, exactly the row of the last physical
row in input order with that key (the first match in the reversed row list):
later rows silently overwrite earlier ones. -/
theorem c3_duplicate_key_overwrite (t : Table) (key_columns : List String)
    (ki : List Nat)
    (hki : key_columns.mapM (resolveKeyColumn t.headers) = some ki)
    (k : String) :
    read_csv_to_map t key_columns = some (t.headers, buildIndex ki t.rows) ∧
      mapGet (buildIndex ki t.rows) k =
        t.rows.reverse.find? (fun r => makeKey ki r == k) := by
  constructor
  · rw [read_csv_to_map, hki]
    rfl
  · exact mapGet_buildIndex ki t.rows k

theorem c3_duplicate_key_overwrite_witness :
    (["id"].mapM (resolveKeyColumn ["id", "v"]) = some [0]) ∧
      mapGet (buildIndex [0] [["1", "x"], ["1", "y"]]) "1" =
        [["1", "x"], ["1", "y"]].reverse.find? (fun r => makeKey [0] r == "1") ∧
      mapGet (buildIndex [0] [["1", "x"], ["1", "y"]]) "1" = some ["1", "y"] :=
  ⟨by decide,
    (c3_duplicate_key_overwrite ⟨["id", "v"], [["1", "x"], ["1", "y"]]⟩
      ["id"] [0] (by decide) "1").2,
    by decide⟩

/-- C4: a requested key column absent from a table's header makes
`read_csv_to_map` fail for every row list over that header (the failure is
decided by the header alone, before any row is indexed), and the whole run
aborts with no diff records produced, whichever of the two tables carries
the bad header. -/
theorem c4_unknown_key_column (headers : List String) (rows : List Row)
    (key_columns ignore : List String) (k : String)
    (hk : k ∈ key_columns) (habs : k ∉ headers) :
    read_csv_to_map ⟨headers, rows⟩ key_columns = none ∧
      (∀ t2 : Table, runDiff ⟨headers, rows⟩ t2 key_columns ignore = none) ∧
      (∀ t1 : Table, runDiff t1 ⟨headers, rows⟩ key_columns ignore = none) := by
  have hnone : read_csv_to_map ⟨headers, rows⟩ key_columns = none := by
    rw [read_csv_to_map,
      mapM_opt_eq_none _ key_columns k hk (resolveKeyColumn_eq_none headers k habs)]
    rfl
  refine ⟨hnone, ?_, ?_⟩
  · intro t2
    simp only [runDiff, hnone, Option.bind_eq_bind, Option.none_bind]
  · intro t1
    simp only [runDiff, Option.bind_eq_bind]
    cases h1 : read_csv_to_map t1 key_columns with
    | none => rfl
    | some p => simp only [Option.some_bind, hnone, Option.none_bind]

theorem c4_unknown_key_column_witness :
    ("nope" ∈ ["nope"] ∧ "nope" ∉ ["id", "v"]) ∧
      read_csv_to_map ⟨["id", "v"], [["1", "x"]]⟩ ["nope"] = none ∧
      runDiff ⟨["id", "v"], [["1", "x"]]⟩ ⟨["id", "v"], [["1", "x"]]⟩
        ["nope"] [] = none :=
  ⟨⟨by decide, by decide⟩,
    (c4_unknown_key_column ["id", "v"] [["1", "x"]] ["nope"] [] "nope"
      (by decide) (by decide)).1,
    (c4_unknown_key_column ["id", "v"] [["1", "x"]] ["nope"] [] "nope"
      (by decide) (by decide)).2.1 ⟨["id", "v"], [["1", "x"]]⟩⟩

/-- C2: the key set the diff engine iterates is one duplicate-free
enumeration of the union of the two indices' key sets: a key is in it
exactly when it is present in at least one index (it occurs once there and
never otherwise), and for every key of the union exactly one of the three
dispatch shapes (both-present, left-only, right-only) holds — in
particular the fourth, `unreachable!`, shape never does. -/
theorem c2_union_coverage (m1 m2 : RowMap) (k : String) :
    ((allKeys m1 m2).count k
        = if (mapGet m1 k).isSome ∨ (mapGet m2 k).isSome then 1 else 0) ∧
      (k ∈ allKeys m1 m2 ↔ (mapGet m1 k).isSome ∨ (mapGet m2 k).isSome) ∧
      (k ∈ allKeys m1 m2 →
        [(mapGet m1 k).isSome && (mapGet m2 k).isSome,
          (mapGet m1 k).isSome && !(mapGet m2 k).isSome,
          !(mapGet m1 k).isSome && (mapGet m2 k).isSome].count true = 1) := by
  have hmem : k ∈ allKeys m1 m2 ↔ (mapGet m1 k).isSome ∨ (mapGet m2 k).isSome := by
    rw [allKeys, List.mem_dedup, List.mem_append, mem_mapKeys_iff, mem_mapKeys_iff]
  have hnd : (allKeys m1 m2).Nodup := List.nodup_dedup _
  refine ⟨?_, hmem, ?_⟩
  · by_cases h : (mapGet m1 k).isSome ∨ (mapGet m2 k).isSome
    · rw [if_pos h]
      exact List.count_eq_one_of_mem hnd (hmem.mpr h)
    · rw [if_neg h]
      exact List.count_eq_zero_of_not_mem (fun hm => h (hmem.mp hm))
  · intro hk
    have hor := hmem.mp hk
    cases hb1 : (mapGet m1 k).isSome <;> cases hb2 : (mapGet m2 k).isSome <;>
      first
      | decide
      | (rw [hb1, hb2] at hor; simp at hor)

theorem c2_union_coverage_witness :
    ("1" ∈ allKeys [("1", ["1", "x"])] [("2", ["2", "y"])]) ∧
      (allKeys [("1", ["1", "x"])] [("2", ["2", "y"])]).count "1" = 1 ∧
      [(mapGet [("1", ["1", "x"])] "1").isSome &&
          (mapGet [("2", ["2", "y"])] "1").isSome,
        (mapGet [("1", ["1", "x"])] "1").isSome &&
          !(mapGet [("2", ["2", "y"])] "1").isSome,
        !(mapGet [("1", ["1", "x"])] "1").isSome &&
          (mapGet [("2", ["2", "y"])] "1").isSome].count true = 1 :=
  ⟨by decide,
    by
      rw [(c2_union_coverage [("1", ["1", "x"])] [("2", ["2", "y"])] "1").1]
      decide,
    (c2_union_coverage [("1", ["1", "x"])] [("2", ["2", "y"])] "1").2.2 (by decide)⟩

theorem filter_filterMap_column (f : String → Option DiffRow)
    (hf : ∀ col d, f col = some d → d.column = col) (c : String) :
    ∀ l : List String, l.Nodup →
      (l.filterMap f).filter (fun d => d.column == c) =
        if c ∈ l then (f c).toList else [] := by
  intro l
  induction l with
  | nil => intro _; simp
  | cons a t ih =>
    intro hnd
    rcases List.nodup_cons.mp hnd with ⟨ha, hndt⟩
    rw [List.filterMap_cons]
    cases hfa : f a with
    | none =>
      rw [ih hndt]
      by_cases hca : c = a
      · subst hca
        rw [if_neg ha, if_pos (List.mem_cons_self c t), hfa]
        rfl
      · by_cases hct : c ∈ t
        · rw [if_pos hct, if_pos (List.mem_cons.mpr (Or.inr hct))]
        · rw [if_neg hct,
            if_neg (fun hm => (List.mem_cons.mp hm).elim hca hct)]
    | some d =>
      have hcol : d.column = a := hf a d hfa
      rw [List.filter_cons]
      by_cases hca : c = a
      · subst hca
        rw [if_pos (by simp [hcol]), ih hndt, if_neg ha,
          if_pos (List.mem_cons_self c t), hfa]
        rfl
      · rw [if_neg (by simp [hcol]; exact fun he => hca he.symm), ih hndt]
        by_cases hct : c ∈ t
        · rw [if_pos hct, if_pos (List.mem_cons.mpr (Or.inr hct))]
        · rw [if_neg hct,
            if_neg (fun hm => (List.mem_cons.mp hm).elim hca hct)]

/-- C1: for a key present in both indices the engine runs the column loop,
and for every column name `c` the loop emits exactly one record when `c` is
in the union of the headers, is neither a key nor an ignored column, and
either differs between the two rows (both raw values carried, missing
trailing fields reading as "") or is one-sided (the present value plus the
fixed absent-column sentinel); it emits no record otherwise — in
particular never for a key or ignored column, and never for an equal
comparable column. -/
theorem c1_both_present_records (key ignore h1 h2 : List String)
    (m1 m2 : RowMap) (k : String) (r1 r2 : Row)
    (hq1 : mapGet m1 k = some r1) (hq2 : mapGet m2 k = some r2) :
    processKey key ignore h1 h2 m1 m2 k =
        some (diffBoth key ignore h1 h2 k r1 r2) ∧
      ∀ c : String,
        (diffBoth key ignore h1 h2 k r1 r2).filter (fun d => d.column == c) =
          if c ∈ h1 ++ h2 ∧ c ∉ key ∧ c ∉ ignore then
            match headersMapGet h1 c, headersMapGet h2 c with
            | some i, some j =>
              if r1.getD i "" ≠ r2.getD j "" then
                [{ key := k, column := c, file1 := r1.getD i "",
                   file2 := r2.getD j "" }]
              else []
            | some i, none =>
              [{ key := k, column := c, file1 := r1.getD i "",
                 file2 := "[column not in file2]" }]
            | none, some j =>
              [{ key := k, column := c, file1 := "[column not in file1]",
                 file2 := r2.getD j "" }]
            | none, none => []
          else [] := by
  constructor
  · rw [processKey, hq1, hq2]
  · intro c
    have hf : ∀ col d,
        (if col ∈ key ∨ col ∈ ignore then none
          else (compareColumn h1 h2 r1 r2 col).map
            (fun v => { key := k, column := col, file1 := v.1,
                        file2 := v.2 : DiffRow })) = some d →
        d.column = col := by
      intro col d h
      by_cases hcol : col ∈ key ∨ col ∈ ignore
      · rw [if_pos hcol] at h
        cases h
      · rw [if_neg hcol] at h
        cases hcc : compareColumn h1 h2 r1 r2 col with
        | none => rw [hcc] at h; cases h
        | some v => rw [hcc] at h; cases h; rfl
    rw [diffBoth, allColumns, filter_filterMap_column _ hf c _ (List.nodup_dedup _)]
    by_cases hc : c ∈ h1 ++ h2
    · rw [if_pos (List.mem_dedup.mpr hc)]
      by_cases hki : c ∈ key ∨ c ∈ ignore
      · rw [if_pos hki, if_neg (fun hand => hki.elim hand.2.1 hand.2.2)]
        rfl
      · push_neg at hki
        rw [if_neg (not_or.mpr ⟨hki.1, hki.2⟩),
          if_pos ⟨hc, hki.1, hki.2⟩, compareColumn]
        cases headersMapGet h1 c with
        | none =>
          cases headersMapGet h2 c with
          | none => rfl
          | some j => rfl
        | some i =>
          cases headersMapGet h2 c with
          | none => rfl
          | some j =>
            by_cases hv : r1.getD i "" = r2.getD j ""
            · simp only [List.getD_eq_getElem?_getD] at hv
              simp [hv]
            · simp only [List.getD_eq_getElem?_getD] at hv
              simp [hv]
    · rw [if_neg (fun hm => hc (List.mem_dedup.mp hm)),
        if_neg (fun hand => hc hand.1)]

theorem c1_both_present_records_witness :
    (mapGet [("1", ["1", "10", "z"])] "1" = some ["1", "10", "z"] ∧
      mapGet [("1", ["1", "11"])] "1" = some ["1", "11"]) ∧
      (diffBoth ["id"] [] ["id", "v", "w"] ["id", "v"] "1"
          ["1", "10", "z"] ["1", "11"]).filter (fun d => d.column == "v") =
        if "v" ∈ ["id", "v", "w"] ++ ["id", "v"] ∧ "v" ∉ ["id"] ∧
            "v" ∉ ([] : List String) then
          match headersMapGet ["id", "v", "w"] "v",
            headersMapGet ["id", "v"] "v" with
          | some i, some j =>
            if (["1", "10", "z"] : Row).getD i "" ≠
                (["1", "11"] : Row).getD j "" then
              [{ key := "1", column := "v",
                 file1 := (["1", "10", "z"] : Row).getD i "",
                 file2 := (["1", "11"] : Row).getD j "" }]
            else []
          | some i, none =>
            [{ key := "1", column := "v",
               file1 := (["1", "10", "z"] : Row).getD i "",
               file2 := "[column not in file2]" }]
          | none, some j =>
            [{ key := "1", column := "v", file1 := "[column not in file1]",
               file2 := (["1", "11"] : Row).getD j "" }]
          | none, none => []
        else [] :=
  ⟨⟨by decide, by decide⟩,
    (c1_both_present_records ["id"] [] ["id", "v", "w"] ["id", "v"]
      [("1", ["1", "10", "z"])] [("1", ["1", "11"])] "1"
      ["1", "10", "z"] ["1", "11"] (by decide) (by decide)).2 "v"⟩

theorem compareColumn_self (h : List String) (r : Row) (col : String) :
    compareColumn h h r r col = none := by
  rw [compareColumn]
  cases headersMapGet h col with
  | none => rfl
  | some i => simp

theorem diffBoth_self (key ignore h : List String) (k : String) (r : Row) :
    diffBoth key ignore h h k r r = [] := by
  rw [diffBoth, List.filterMap_eq_nil_iff]
  intro col hcol
  by_cases hc : col ∈ key ∨ col ∈ ignore
  · rw [if_pos hc]
  · rw [if_neg hc, compareColumn_self]
    rfl

theorem mapM_flatten_nil (g : α → Option (List β)) :
    ∀ ks : List α, (∀ k ∈ ks, g k = some []) →
      ((ks.mapM g).map List.flatten) = some [] := by
  intro ks
  induction ks with
  | nil => intro _; rfl
  | cons a t ih =>
    intro h
    have ht := ih (fun k hk => h k (List.mem_cons_of_mem a hk))
    rw [mapM_opt_cons, h a (List.mem_cons_self a t)]
    cases hmt : t.mapM g with
    | none => rw [hmt] at ht; cases ht
    | some bs =>
      rw [hmt] at ht
      have hbs : bs.flatten = [] := by
        simpa using ht
      show some (List.flatten ([] :: bs)) = some []
      rw [List.flatten_cons, List.nil_append, hbs]

/-- C9: reconciling a table against itself with any key columns that
resolve against its header (and any ignore list) yields the empty
diff-record sequence. -/
theorem c9_self_reconcile (t : Table) (key ignore : List String)
    (pr : List String × RowMap) (hread : read_csv_to_map t key = some pr) :
    runDiff t t key ignore = some [] := by
  simp only [runDiff, hread, Option.bind_eq_bind, Option.some_bind]
  rw [reconcile]
  apply mapM_flatten_nil
  intro k hk
  have hks : (mapGet pr.2 k).isSome := by
    rw [← mem_mapKeys_iff]
    rcases List.mem_append.mp (List.mem_dedup.mp hk) with h | h <;> exact h
  cases hg : mapGet pr.2 k with
  | none => rw [hg] at hks; cases hks
  | some r =>
    rw [processKey, hg]
    show some (diffBoth key ignore pr.1 pr.1 k r r) = some []
    rw [diffBoth_self]

theorem c9_self_reconcile_witness :
    (read_csv_to_map ⟨["id", "v"], [["1", "x"], ["2", "y"]]⟩ ["id"] =
        some (["id", "v"],
          [("2", ["2", "y"]), ("1", ["1", "x"])])) ∧
      runDiff ⟨["id", "v"], [["1", "x"], ["2", "y"]]⟩
        ⟨["id", "v"], [["1", "x"], ["2", "y"]]⟩ ["id"] ["v"] = some [] :=
  ⟨by decide,
    c9_self_reconcile ⟨["id", "v"], [["1", "x"], ["2", "y"]]⟩ ["id"] ["v"]
      (["id", "v"], [("2", ["2", "y"]), ("1", ["1", "x"])]) (by decide)⟩

theorem diffBoth_fun_column (key ignore h1 h2 : List String) (k : String)
    (r1 r2 : Row) :
    ∀ col d,
      (if col ∈ key ∨ col ∈ ignore then none
        else (compareColumn h1 h2 r1 r2 col).map
          (fun v => { key := k, column := col, file1 := v.1,
                      file2 := v.2 : DiffRow })) = some d →
      d.column = col ∧ d.key = k := by
  intro col d h
  by_cases hcol : col ∈ key ∨ col ∈ ignore
  · rw [if_pos hcol] at h
    cases h
  · rw [if_neg hcol] at h
    cases hcc : compareColumn h1 h2 r1 r2 col with
    | none => rw [hcc] at h; cases h
    | some v => rw [hcc] at h; cases h; exact ⟨rfl, rfl⟩

theorem diffBoth_mem_key (key ignore h1 h2 : List String) (k : String)
    (r1 r2 : Row) (d : DiffRow) (hd : d ∈ diffBoth key ignore h1 h2 k r1 r2) :
    d.key = k := by
  rw [diffBoth] at hd
  rcases List.mem_filterMap.mp hd with ⟨col, _, hf⟩
  exact (diffBoth_fun_column key ignore h1 h2 k r1 r2 col d hf).2

theorem diffBoth_countP_column (key ignore h1 h2 : List String) (k c : String)
    (r1 r2 : Row) :
    (diffBoth key ignore h1 h2 k r1 r2).countP (fun d => d.column == c) ≤ 1 := by
  rw [List.countP_eq_length_filter, diffBoth, allColumns,
    filter_filterMap_column _
      (fun col d h => (diffBoth_fun_column key ignore h1 h2 k r1 r2 col d h).1)
      c _ (List.nodup_dedup _)]
  by_cases hc : c ∈ (h1 ++ h2).dedup
  · rw [if_pos hc]
    cases (if c ∈ key ∨ c ∈ ignore then none
      else (compareColumn h1 h2 r1 r2 c).map
        (fun v => { key := k, column := c, file1 := v.1,
                    file2 := v.2 : DiffRow })) <;> simp
  · rw [if_neg hc]
    simp

theorem processKey_records (key ignore h1 h2 : List String) (m1 m2 : RowMap)
    (k : String) (bs : List DiffRow)
    (h : processKey key ignore h1 h2 m1 m2 k = some bs) :
    (∀ d ∈ bs, d.key = k) ∧
      ∀ c, bs.countP (fun d => d.column == c) ≤ 1 := by
  rw [processKey] at h
  cases hg1 : mapGet m1 k <;> cases hg2 : mapGet m2 k <;>
    simp only [hg1, hg2] at h
  · cases h
  · cases hp : rowPreview _ with
    | none => rw [hp] at h; cases h
    | some p =>
      rw [hp, Option.map_some'] at h
      cases h
      refine ⟨fun d hd => ?_, fun c => ?_⟩
      · rcases List.mem_singleton.mp hd with rfl
        rfl
      · rw [List.countP_singleton]
        split <;> simp
  · cases hp : rowPreview _ with
    | none => rw [hp] at h; cases h
    | some p =>
      rw [hp, Option.map_some'] at h
      cases h
      refine ⟨fun d hd => ?_, fun c => ?_⟩
      · rcases List.mem_singleton.mp hd with rfl
        rfl
      · rw [List.countP_singleton]
        split <;> simp
  · cases h
    exact ⟨fun d hd => diffBoth_mem_key key ignore h1 h2 k _ _ d hd,
      fun c => diffBoth_countP_column key ignore h1 h2 k c _ _⟩

theorem mapM_processKey_block_keys (key ignore h1 h2 : List String)
    (m1 m2 : RowMap) :
    ∀ (ks : List String) (bss : List (List DiffRow)),
      ks.mapM (processKey key ignore h1 h2 m1 m2) = some bss →
      ∀ d ∈ bss.flatten, d.key ∈ ks := by
  intro ks
  induction ks with
  | nil =>
    intro bss h d hd
    rw [mapM_opt_nil] at h
    cases h
    simp at hd
  | cons a t ih =>
    intro bss h d hd
    rw [mapM_opt_cons] at h
    cases hpa : processKey key ignore h1 h2 m1 m2 a with
    | none => rw [hpa] at h; cases h
    | some bs =>
      rw [hpa] at h
      cases hmt : t.mapM (processKey key ignore h1 h2 m1 m2) with
      | none => rw [hmt] at h; cases h
      | some rest =>
        rw [hmt] at h
        cases h
        rw [List.flatten_cons] at hd
        rcases List.mem_append.mp hd with hd | hd
        · exact List.mem_cons.mpr
            (Or.inl ((processKey_records key ignore h1 h2 m1 m2 a bs hpa).1 d hd))
        · exact List.mem_cons.mpr (Or.inr (ih rest hmt d hd))

theorem flatten_countP_le_one (key ignore h1 h2 : List String) (m1 m2 : RowMap)
    (k c : String) :
    ∀ (ks : List String), ks.Nodup →
      ∀ bss, ks.mapM (processKey key ignore h1 h2 m1 m2) = some bss →
        bss.flatten.countP (fun d => d.key == k && d.column == c) ≤ 1 := by
  intro ks
  induction ks with
  | nil =>
    intro _ bss h
    rw [mapM_opt_nil] at h
    cases h
    simp
  | cons a t ih =>
    intro hnd bss h
    rcases List.nodup_cons.mp hnd with ⟨hat, hndt⟩
    rw [mapM_opt_cons] at h
    cases hpa : processKey key ignore h1 h2 m1 m2 a with
    | none => rw [hpa] at h; cases h
    | some bs =>
      rw [hpa] at h
      cases hmt : t.mapM (processKey key ignore h1 h2 m1 m2) with
      | none => rw [hmt] at h; cases h
      | some rest =>
        rw [hmt] at h
        cases h
        rw [List.flatten_cons, List.countP_append]
        rcases processKey_records key ignore h1 h2 m1 m2 a bs hpa with ⟨hkeys, hcols⟩
        by_cases hka : k = a
        · subst hka
          have hrest : rest.flatten.countP
              (fun d => d.key == k && d.column == c) = 0 := by
            rw [List.countP_eq_zero]
            intro d hd
            have hmem := mapM_processKey_block_keys key ignore h1 h2 m1 m2
              t rest hmt d hd
            have hne : d.key ≠ k := fun he => hat (he ▸ hmem)
            simp [hne]
          have hbs : bs.countP (fun d => d.key == k && d.column == c) ≤ 1 := by
            refine le_trans (List.countP_mono_left fun d hd hp => ?_) (hcols c)
            exact (Bool.and_elim_right hp)
          omega
        · have hbs0 : bs.countP (fun d => d.key == k && d.column == c) = 0 := by
            rw [List.countP_eq_zero]
            intro d hd
            have hne : d.key ≠ k := fun he => hka (he ▸ hkeys d hd)
            simp [hne]
          have hr := ih hndt rest hmt
          omega

/-- C10: the full diff-record sequence contains at most one record for any
given (key, column) pair: keys are iterated from a duplicate-free union and
column names, within a both-present key, from a duplicate-free header
union. -/
theorem c10_at_most_one_record (key ignore h1 h2 : List String)
    (m1 m2 : RowMap) (ds : List DiffRow) (k c : String)
    (h : reconcile key ignore h1 h2 m1 m2 = some ds) :
    ds.countP (fun d => d.key == k && d.column == c) ≤ 1 := by
  rw [reconcile] at h
  cases hm : (allKeys m1 m2).mapM (processKey key ignore h1 h2 m1 m2) with
  | none => rw [hm] at h; cases h
  | some bss =>
    rw [hm] at h
    have hds : ds = bss.flatten := by
      simpa using h.symm
    rw [hds]
    exact flatten_countP_le_one key ignore h1 h2 m1 m2 k c (allKeys m1 m2)
      (List.nodup_dedup _) bss hm

theorem c10_at_most_one_record_witness :
    (reconcile ["id"] [] ["id", "v"] ["id", "v"]
        [("1", ["1", "10"])] [("1", ["1", "11"])] =
      some [{ key := "1", column := "v", file1 := "10", file2 := "11" }]) ∧
      ([{ key := "1", column := "v", file1 := "10",
          file2 := "11" }] : List DiffRow).countP
        (fun d => d.key == "1" && d.column == "v") ≤ 1 :=
  ⟨by decide,
    c10_at_most_one_record ["id"] [] ["id", "v"] ["id", "v"]
      [("1", ["1", "10"])] [("1", ["1", "11"])]
      [{ key := "1", column := "v", file1 := "10", file2 := "11" }] "1" "v"
      (by decide)⟩

/-- C5: with truncation on and `max_rows < L` (the diff count), and the
per-cell truncation succeeding, the formatter displays exactly the first
`headRows = max_rows / 2` records, one elision marker stating `L - max_rows`
hidden rows, and the last `tailRows = max_rows - headRows - 1` records —
`headRows + 1 + tailRows` records in all, with
`headRows + tailRows = max_rows - 1` (Nat subtraction). -/
theorem c5_truncation_window (diffs truncated : List DiffRow) (M w : Nat)
    (hM : M < diffs.length)
    (ht : diffs.mapM (truncateDiffRow w) = some truncated) :
    create_summary_table diffs M w false =
        some (truncated.take (M / 2) ++
          sepRow (diffs.length - M) ::
            truncated.drop (truncated.length - (M - M / 2 - 1))) ∧
      (truncated.take (M / 2) ++
          sepRow (diffs.length - M) ::
            truncated.drop (truncated.length - (M - M / 2 - 1))).length
        = M / 2 + 1 + (M - M / 2 - 1) ∧
      M / 2 + (M - M / 2 - 1) = M - 1 := by
  have hlen : truncated.length = diffs.length :=
    length_of_mapM_opt _ _ _ ht
  have hne : ¬(diffs.length = 0) := by omega
  have hnle : ¬(diffs.length ≤ M) := by omega
  have hhead : M / 2 ≤ M := Nat.div_le_self M 2
  refine ⟨?_, ?_, by omega⟩
  · rw [create_summary_table, if_neg (by simp), if_neg hne, ht]
    simp only [Option.bind_eq_bind, Option.some_bind]
    rw [if_neg hnle]
    by_cases ht0 : M - M / 2 - 1 = 0
    · rw [ht0]
      rw [if_neg (by omega)]
      have : truncated.length - 0 = truncated.length := by omega
      rw [this, List.drop_length]
      simp
    · rw [if_pos ⟨by omega, by rw [List.length_drop]; omega⟩]
      rw [List.length_drop, List.drop_drop]
      have harith : M / 2 + (truncated.length - M / 2 - (M - M / 2 - 1)) =
          truncated.length - (M - M / 2 - 1) := by omega
      rw [harith]
      simp
  · rw [List.length_append, List.length_cons, List.length_take,
      List.length_drop]
    omega

theorem c5_truncation_window_witness :
    (3 < ([{ key := "1", column := "c", file1 := "a", file2 := "b" },
        { key := "2", column := "c", file1 := "a", file2 := "b" },
        { key := "3", column := "c", file1 := "a", file2 := "b" },
        { key := "4", column := "c", file1 := "a", file2 := "b" },
        { key := "5", column := "c", file1 := "a", file2 := "b" }] :
          List DiffRow).length) ∧
      create_summary_table
        [{ key := "1", column := "c", file1 := "a", file2 := "b" },
          { key := "2", column := "c", file1 := "a", file2 := "b" },
          { key := "3", column := "c", file1 := "a", file2 := "b" },
          { key := "4", column := "c", file1 := "a", file2 := "b" },
          { key := "5", column := "c", file1 := "a", file2 := "b" }] 3 30 false =
        some [{ key := "1", column := "c", file1 := "a", file2 := "b" },
          sepRow 2,
          { key := "5", column := "c", file1 := "a", file2 := "b" }] := by
  constructor
  · decide
  · have h := (c5_truncation_window
      [{ key := "1", column := "c", file1 := "a", file2 := "b" },
        { key := "2", column := "c", file1 := "a", file2 := "b" },
        { key := "3", column := "c", file1 := "a", file2 := "b" },
        { key := "4", column := "c", file1 := "a", file2 := "b" },
        { key := "5", column := "c", file1 := "a", file2 := "b" }]
      [{ key := "1", column := "c", file1 := "a", file2 := "b" },
        { key := "2", column := "c", file1 := "a", file2 := "b" },
        { key := "3", column := "c", file1 := "a", file2 := "b" },
        { key := "4", column := "c", file1 := "a", file2 := "b" },
        { key := "5", column := "c", file1 := "a", file2 := "b" }]
      3 30 (by decide) (by decide)).1
    rw [h]
    decide

theorem utf8Len_ascii : ∀ l : List Char, (∀ c ∈ l, c.utf8Size = 1) →
    utf8Len l = l.length := by
  intro l
  induction l with
  | nil => intro _; rfl
  | cons c cs ih =>
    intro h
    rw [utf8Len, List.map_cons, List.sum_cons, h c (List.mem_cons_self c cs),
      show (cs.map Char.utf8Size).sum = utf8Len cs from rfl,
      ih (fun x hx => h x (List.mem_cons_of_mem c hx)), List.length_cons]
    omega

theorem byteTake_ascii : ∀ (l : List Char) (n : Nat),
    (∀ c ∈ l, c.utf8Size = 1) → n ≤ l.length →
    byteTake n l = some (l.take n) := by
  intro l
  induction l with
  | nil =>
    intro n _ hn
    have h0 : n = 0 := Nat.le_zero.mp hn
    subst h0
    rfl
  | cons c cs ih =>
    intro n h hn
    cases n with
    | zero => rfl
    | succ m =>
      have hc : c.utf8Size = 1 := h c (List.mem_cons_self c cs)
      rw [byteTake, hc, if_pos (by omega)]
      have hm : m + 1 - 1 = m := by omega
      rw [hm,
        ih m (fun x hx => h x (List.mem_cons_of_mem c hx))
          (by rw [List.length_cons] at hn; omega),
        Option.map_some', List.take_succ_cons]

/-- C6 counterexample: `truncate_string` measures bytes, not characters,
and its byte slice can panic: the two-character string "éé" (4 bytes) at
width 3 is NOT returned unchanged, and "éééé" at width 4 panics (the cut
at byte 1 splits a character). -/
theorem c6_counterexample :
    ((String.mk ['é', 'é']).data.length ≤ 3 ∧
      truncate_string (String.mk ['é', 'é']) 3 ≠ some (String.mk ['é', 'é']) ∧
      truncate_string (String.mk ['é', 'é']) 3 = some "...") ∧
      truncate_string (String.mk ['é', 'é', 'é', 'é']) 4 = none := by
  decide

/-- C6 amended: `truncate_string` is byte-based, never underflows (the cut
point `max_width - 3` is saturating), and on ASCII strings — where bytes
and characters coincide — it is total and character-correct exactly as
claimed: a string of at most `max_width` characters is unchanged, a longer
one is cut to `max_width - 3` characters (clamped at 0) with "..."
appended.  On non-ASCII strings it counts bytes and can panic
(c6_counterexample). -/
theorem c6_truncate_string_ascii (s : String) (w : Nat)
    (h : ∀ c ∈ s.data, c.utf8Size = 1) :
    truncate_string s w =
      some (if s.data.length ≤ w then s
        else String.mk (s.data.take (w - 3)) ++ "...") := by
  rw [truncate_string, utf8Len_ascii s.data h]
  by_cases hle : s.data.length ≤ w
  · rw [if_pos hle, if_pos hle]
  · rw [if_neg hle, if_neg hle, byteTake_ascii s.data (w - 3) h (by omega),
      Option.map_some']

theorem c6_truncate_string_ascii_witness :
    (∀ c ∈ ("hello" : String).data, c.utf8Size = 1) ∧
      truncate_string "hello" 4 =
        some (if ("hello" : String).data.length ≤ 4 then "hello"
          else String.mk (("hello" : String).data.take 1) ++ "...") ∧
      truncate_string "hello" 4 = some "h..." :=
  ⟨by decide, c6_truncate_string_ascii "hello" 4 (by decide), by decide⟩

/-- C7 counterexample: a one-field row whose comma-join is exactly 50
characters long: the claim says a join of at most 50 characters is the
preview unchanged, but the code tests `preview.len() >= 50` and cuts it to
47 characters plus "...". -/
theorem c7_counterexample :
    ((String.intercalate "," [String.mk (List.replicate 50 'a')]).data.length
        = 50) ∧
      rowPreview [String.mk (List.replicate 50 'a')] ≠
        some (String.intercalate "," [String.mk (List.replicate 50 'a')]) ∧
      rowPreview [String.mk (List.replicate 50 'a')] =
        some (String.mk (List.replicate 47 'a') ++ "...") := by
  decide

/-- C7 amended: for a row whose comma-join is ASCII, the preview equals the
join when the join is at most 49 characters long, and otherwise is the
join's first 47 characters with "..." appended (so a join of exactly 50
characters is already cut); the preview never exceeds 50 characters.  On
non-ASCII joins the 50-byte test and the byte-47 cut replace the character
counts, and the cut can panic. -/
theorem c7_preview_ascii (r : Row)
    (h : ∀ c ∈ (String.intercalate "," r).data, c.utf8Size = 1) :
    rowPreview r =
        some (if (String.intercalate "," r).data.length ≤ 49 then
            String.intercalate "," r
          else String.mk ((String.intercalate "," r).data.take 47) ++ "...") ∧
      ∀ p, rowPreview r = some p → p.data.length ≤ 50 := by
  have hmain : rowPreview r =
      some (if (String.intercalate "," r).data.length ≤ 49 then
          String.intercalate "," r
        else String.mk ((String.intercalate "," r).data.take 47) ++ "...") := by
    rw [rowPreview]
    have hsub : ∀ c ∈ (String.intercalate "," r).data.take 50, c.utf8Size = 1 :=
      fun c hc => h c (List.take_subset _ _ hc)
    rw [utf8Len_ascii _ hsub]
    by_cases hle : (String.intercalate "," r).data.length ≤ 49
    · rw [List.take_of_length_le (by omega), if_neg (by omega), if_pos hle]
    · have hlen50 : ((String.intercalate "," r).data.take 50).length = 50 := by
        rw [List.length_take]
        omega
      rw [if_pos (by omega),
        byteTake_ascii _ 47 hsub (by omega),
        Option.map_some', List.take_take, if_neg hle]
      rfl
  refine ⟨hmain, fun p hp => ?_⟩
  rw [hmain] at hp
  by_cases hle : (String.intercalate "," r).data.length ≤ 49
  · rw [if_pos hle] at hp
    cases hp
    omega
  · rw [if_neg hle] at hp
    cases hp
    show ((String.intercalate "," r).data.take 47 ++
      ("..." : String).data).length ≤ 50
    rw [List.length_append, List.length_take]
    have : (("..." : String).data).length = 3 := by decide
    omega

theorem c7_preview_ascii_witness :
    (∀ c ∈ (String.intercalate "," ["ab", "cd"]).data, c.utf8Size = 1) ∧
      rowPreview ["ab", "cd"] =
        some (if (String.intercalate "," ["ab", "cd"]).data.length ≤ 49 then
            String.intercalate "," ["ab", "cd"]
          else String.mk
            ((String.intercalate "," ["ab", "cd"]).data.take 47) ++ "...") ∧
      rowPreview ["ab", "cd"] = some "ab,cd" :=
  ⟨by decide, (c7_preview_ascii ["ab", "cd"] (by decide)).1, by decide⟩

theorem getD_cons_zero (a : String) (t : List String) :
    (a :: t).getD 0 "" = a := by
  simp [List.getD]

theorem getD_cons_succ (a : String) (t : List String) (j : Nat) :
    (a :: t).getD (j + 1) "" = t.getD j "" := by
  simp [List.getD]

theorem getD_mem_of_lt (t : List String) (j : Nat) (hj : j < t.length) :
    t.getD j "" ∈ t := by
  rw [List.getD_eq_getElem?_getD, List.getElem?_eq_getElem hj]
  simp

theorem headersMapGet_eq_none_iff (name : String) :
    ∀ headers : List String, headersMapGet headers name = none ↔ name ∉ headers := by
  intro headers
  induction headers with
  | nil => simp [headersMapGet]
  | cons a t ih =>
    rw [headersMapGet]
    cases hmt : headersMapGet t name with
    | some i =>
      have hmem : name ∈ t := by
        by_contra hnot
        rw [ih.mpr hnot] at hmt
        cases hmt
      simp [List.mem_cons, hmem]
    | none =>
      have hnot : name ∉ t := ih.mp hmt
      cases ha : (a == name) with
      | true =>
        have haname : a = name := by simpa using ha
        simp [haname]
      | false =>
        have hne : name ≠ a := fun he => (by simpa using ha : ¬(a = name)) he.symm
        simp [List.mem_cons, hnot, hne]

/-- C8 counterexample: with header ["a", "b", "a"], key-column resolution
picks the first occurrence (index 0), but the per-file
column-name-to-index map built by collecting into a HashMap keeps the LAST
insert and yields index 2 — not the first occurrence as claimed. -/
theorem c8_counterexample :
    resolveKeyColumn ["a", "b", "a"] "a" = some 0 ∧
      headersMapGet ["a", "b", "a"] "a" = some 2 ∧
      headersMapGet ["a", "b", "a"] "a" ≠ some 0 := by
  decide

/-- C8 amended: under duplicate header names, key-column resolution during
indexing picks the FIRST occurrence of the name, while the per-file
column-name-to-index mapping used during cell comparison picks the LAST
occurrence; each returns `none` exactly when the name is absent. -/
theorem c8_name_resolution (headers : List String) (name : String) :
    (∀ i, resolveKeyColumn headers name = some i →
      i < headers.length ∧ headers.getD i "" = name ∧
        ∀ j, j < i → headers.getD j "" ≠ name) ∧
      (∀ i, headersMapGet headers name = some i →
        i < headers.length ∧ headers.getD i "" = name ∧
          ∀ j, i < j → j < headers.length → headers.getD j "" ≠ name) ∧
      (resolveKeyColumn headers name = none ↔ name ∉ headers) ∧
      (headersMapGet headers name = none ↔ name ∉ headers) := by
  refine ⟨?_, ?_, ?_, headersMapGet_eq_none_iff name headers⟩
  · rw [resolveKeyColumn]
    induction headers with
    | nil => intro i h; cases h
    | cons a t ih =>
      intro i h
      rw [List.findIdx?_cons] at h
      cases ha : (a == name) with
      | true =>
        rw [ha] at h
        simp only [if_true] at h
        cases h
        have haname : a = name := by simpa using ha
        exact ⟨by simp, by rw [getD_cons_zero]; exact haname,
          fun j hj => by omega⟩
      | false =>
        rw [ha] at h
        simp only [Bool.false_eq_true, if_false, List.findIdx?_succ] at h
        cases hi2 : t.findIdx? (fun h => h == name) with
        | none => rw [hi2] at h; cases h
        | some i2 =>
          rw [hi2, Option.map_some'] at h
          cases h
          rcases ih i2 hi2 with ⟨hlt, hget, hbefore⟩
          refine ⟨by simp only [List.length_cons]; omega,
            by rw [getD_cons_succ]; exact hget, ?_⟩
          intro j hj
          cases j with
          | zero =>
            rw [getD_cons_zero]
            exact fun he => (by simpa using ha : ¬(a = name)) he
          | succ j2 =>
            rw [getD_cons_succ]
            exact hbefore j2 (by omega)
  · induction headers with
    | nil => intro i h; cases h
    | cons a t ih =>
      intro i h
      rw [headersMapGet] at h
      cases hmt : headersMapGet t name with
      | some i2 =>
        simp only [hmt] at h
        cases h
        rcases ih i2 hmt with ⟨hlt, hget, hafter⟩
        refine ⟨by simp only [List.length_cons]; omega,
          by rw [getD_cons_succ]; exact hget, ?_⟩
        intro j hij hjlen
        cases j with
        | zero => omega
        | succ j2 =>
          rw [getD_cons_succ]
          exact hafter j2 (by omega)
            (by simp only [List.length_cons] at hjlen; omega)
      | none =>
        simp only [hmt] at h
        cases ha : (a == name) with
        | true =>
          rw [ha] at h
          simp only [if_true] at h
          cases h
          have haname : a = name := by simpa using ha
          refine ⟨by simp, by rw [getD_cons_zero]; exact haname, ?_⟩
          intro j hij hjlen
          cases j with
          | zero => omega
          | succ j2 =>
            have hji : j2 < t.length := by
              simp only [List.length_cons] at hjlen
              omega
            have hnot : name ∉ t := (headersMapGet_eq_none_iff name t).mp hmt
            rw [getD_cons_succ]
            intro he
            exact hnot (he ▸ getD_mem_of_lt t j2 hji)
        | false =>
          rw [ha] at h
          simp at h
  · constructor
    · intro h
      rw [resolveKeyColumn, List.findIdx?_eq_none_iff] at h
      intro hmem
      have hcontra := h name hmem
      simp at hcontra
    · exact resolveKeyColumn_eq_none headers name

theorem c8_name_resolution_witness :
    headersMapGet ["a", "b", "a"] "a" = some 2 ∧
      2 < (["a", "b", "a"] : List String).length ∧
      (["a", "b", "a"] : List String).getD 2 "" = "a" ∧
      ∀ j, 2 < j → j < (["a", "b", "a"] : List String).length →
        (["a", "b", "a"] : List String).getD j "" ≠ "a" :=
  ⟨by decide, (c8_name_resolution ["a", "b", "a"] "a").2.1 2 (by decide)⟩

end Csvdiff

section Examples
open Csvdiff

example : truncate_string "hello world" 8 = some "hello..." := by decide
example : truncate_string "hi" 8 = some "hi" := by decide
example : truncate_string (String.mk ['é', 'é']) 3 = some "..." := by decide
example : truncate_string (String.mk ['é', 'é', 'é', 'é']) 4 = none := by decide
example : headersMapGet ["a", "b", "a"] "a" = some 2 := by decide
example : resolveKeyColumn ["a", "b", "a"] "a" = some 0 := by decide
example :
    read_csv_to_map ⟨["id", "v"], [["1", "x"], ["1", "y"]]⟩ ["id"] =
      some (["id", "v"], [("1", ["1", "y"]), ("1", ["1", "x"])]) := by decide
example : mapGet [("1", ["1", "y"]), ("1", ["1", "x"])] "1" = some ["1", "y"] := by
  decide
example :
    runDiff ⟨["id", "v"], [["1", "10"], ["2", "20"]]⟩
      ⟨["id", "v"], [["1", "11"], ["3", "30"]]⟩ ["id"] [] =
      some [⟨"2", "[missing in file2]", "2,20", ""⟩,
        ⟨"3", "[missing in file1]", "", "3,30"⟩, ⟨"1", "v", "10", "11"⟩] := by decide
example :
    rowPreview [String.mk (List.replicate 50 'a')] =
      some (String.mk (List.replicate 47 'a') ++ "...") := by decide
example :
    create_summary_table [⟨"1", "c", "a", "b"⟩, ⟨"2", "c", "a", "b"⟩,
      ⟨"3", "c", "a", "b"⟩] 2 30 false =
      some [⟨"1", "c", "a", "b"⟩, sepRow 1] := by decide
example :
    create_summary_table [⟨"1", "c", "a", "b"⟩, ⟨"2", "c", "a", "b"⟩,
      ⟨"3", "c", "a", "b"⟩, ⟨"4", "c", "a", "b"⟩] 3 30 false =
      some [⟨"1", "c", "a", "b"⟩, sepRow 1, ⟨"4", "c", "a", "b"⟩] := by decide

end Examples
